import Mathlib

/-!
Verification of the Intcode virtual machine of
`2019/Python/Challenges/utils/IntcodeComp.py`.

Shallow embedding of the `IntcodeComp` class.  Python's mutable `List[int]`
program memory becomes an explicit `List Int` threaded through each
operation; the machine object (`self`) becomes the structure `IntcodeComp`;
Python exceptions become explicit error results; the busy-wait loop of a
threaded machine on an empty input queue becomes the distinguished
`StepOut.blocked` outcome (the state is unchanged while waiting, so
suspension is modelled by returning the unchanged state's step result).

Python list indexing semantics (`prog[i]`): a non-negative index reads the
i-th element and raises `IndexError` past the end; a negative index `i`
aliases the element at `len + i` and raises `IndexError` when `len + i` is
still negative.  This is modelled by `pyGet` / `pySet` returning `none` for
the raising cases.
-/

deriving instance DecidableEq for Except

/-- Write position `n` of a list, failing past the end (Python raises
`IndexError` on an out-of-range list assignment). -/
def pySetAux : List Int → Nat → Int → List Int → Option (List Int)
  | [], _, _, _ => none
  | _ :: t, 0, v, acc => some (List.reverseAux acc (v :: t))
  | h :: t, n + 1, v, acc => pySetAux t n v (h :: acc)

/-- Write position `n` of a list (accumulator form of the obvious
recursion, so that it evaluates iteratively). -/
def pySetNat (l : List Int) (n : Nat) (v : Int) : Option (List Int) :=
  pySetAux l n v []

/-- Python read `l[i]`: a non-negative index reads position `i`, a negative
index `i` aliases the element `|i|` places from the end (position
`l.length + i`), and both fail out of range.  Counting from the end is
realised on the reversed list so the definition evaluates without computing
`l.length`. -/
def pyGet (l : List Int) (i : Int) : Option Int :=
  if 0 ≤ i then l.get? i.toNat
  else l.reverse.get? (i.natAbs - 1)

/-- Python write `l[i] = v`, indexing exactly as `pyGet`. -/
def pySet (l : List Int) (i : Int) (v : Int) : Option (List Int) :=
  if 0 ≤ i then pySetNat l i.toNat v
  else Option.map List.reverse (pySetNat l.reverse (i.natAbs - 1) v)

/-- Little-endian decimal digits of `n`, with an explicit structural fuel
(`n` itself bounds the number of division steps). -/
def digitsAux : Nat → Nat → List Nat
  | _, 0 => []
  | 0, _ + 1 => []
  | f + 1, n + 1 => ((n + 1) % 10) :: digitsAux f ((n + 1) / 10)

/-- Little-endian decimal digits of `n` (empty for 0). -/
def natDigitsLE (n : Nat) : List Nat := digitsAux n n

/-- Right-pad a little-endian digit list with zeros up to length `k`
(i.e. left-pad the decimal string with `0` characters). -/
def padTo (k : Nat) (l : List Nat) : List Nat :=
  l ++ List.replicate (k - l.length) 0

/-- The character list of Python's `f"{w:05}"`, little-endian (index 0 is the
last character of the string).  `some d` is a digit character, `none` is the
sign character `-` of a negative value (zero-padding in Python is
sign-aware, so the sign is always the first character, i.e. the last list
entry). -/
def instrChars (w : Int) : List (Option Nat) :=
  if 0 ≤ w then (padTo 5 (natDigitsLE w.toNat)).map some
  else ((padTo 4 (natDigitsLE w.natAbs)).map some) ++ [none]

/-- Opcodes of the Intcode machine (`Opcode` enum in the source). -/
inductive Opcode where
  | ADD | MUL | INP | OUT | JIT | JIF | TLT | TEQ | REF | HLT
deriving DecidableEq, Repr

/-- Conversion `Opcode(n)` for the two-digit opcode value: `none` models the
`ValueError` the enum conversion raises for an unsupported value. -/
def toOpcodeN (n : Nat) : Option Opcode :=
  match n with
  | 1 => some .ADD
  | 2 => some .MUL
  | 3 => some .INP
  | 4 => some .OUT
  | 5 => some .JIT
  | 6 => some .JIF
  | 7 => some .TLT
  | 8 => some .TEQ
  | 9 => some .REF
  | 99 => some .HLT
  | _ => none

/-- Conversion `Opcode(w)` on a raw (full-word) program value, used by the
non-modes run loop. -/
def toOpcodeI (w : Int) : Option Opcode :=
  if 0 ≤ w then toOpcodeN w.toNat else none

/-- The parameter-modes string, as the little-endian character list of the
formatted instruction with the last two characters removed
(`instruction[0:-2]`, read from the right as `modes[-param]` is). -/
abbrev Modes := List (Option Nat)

/-- Numeric value of the last two characters of the formatted instruction
(`int(instruction[-2:])`); the format width 5 guarantees both are digit
characters. -/
def opcodeNum (cs : List (Option Nat)) : Nat :=
  (cs.getD 0 (some 0)).getD 0 + 10 * (cs.getD 1 (some 0)).getD 0

/-- Model of `IntcodeComp._decode_instruction`: format the word to at least five
characters, split off the low two digits as the opcode and keep the rest as
the modes string. -/
def decode_instruction (w : Int) : Option Opcode × Modes :=
  let cs := instrChars w
  (toOpcodeN (opcodeNum cs), cs.drop 2)

/-- The Intcode machine state (`IntcodeComp` object fields). -/
structure IntcodeComp where
  program : List Int
  modes : Bool
  threaded : Bool
  inputBuffer : List Int
  outputBuffer : List Int
  reference : Int
deriving DecidableEq, Repr

/-- Model of `IntcodeComp.__init__`: the parsed code plus 2000 cells of additional
zeroed memory. -/
def IntcodeComp.init (code : List Int) (modes : Bool := true)
    (threaded : Bool := false) : IntcodeComp :=
  { program := code ++ List.replicate 2000 0
    modes := modes
    threaded := threaded
    inputBuffer := []
    outputBuffer := []
    reference := 0 }

/-- Model of `IntcodeComp._get_param`: resolve parameter `param` of the instruction
at `ip` to a read value.  `modes = none` is the modes-disabled machine
(always position mode).  Errors model the Python exceptions: a failed list
access (`IndexError`), indexing the modes string out of range
(`IndexError`), converting the sign character (`ValueError` from `int`),
and an unsupported mode digit (`ValueError` from `ParamMode`). -/
def get_param (prog : List Int) (ip : Int) (modes : Option Modes)
    (param : Nat) (ref : Int) : Except String Int :=
  match pyGet prog (ip + param) with
  | none => .error "IndexError"
  | some x =>
    match modes with
    | none =>
      match pyGet prog x with
      | none => .error "IndexError"
      | some v => .ok v
    | some ms =>
      match ms.get? (param - 1) with
      | none => .error "IndexError"
      | some none => .error "invalid literal for int"
      | some (some d) =>
        match d with
        | 0 =>
          match pyGet prog x with
          | none => .error "IndexError"
          | some v => .ok v
        | 1 => .ok x
        | 2 =>
          match pyGet prog (x + ref) with
          | none => .error "IndexError"
          | some v => .ok v
        | _ => .error "is not a valid ParamMode"

/-- Model of `IntcodeComp._get_register`: resolve parameter `param` of the
instruction at `ip` to a write address.  Immediate mode is rejected
(`ValueError`), never silently defaulted. -/
def get_register (prog : List Int) (ip : Int) (modes : Option Modes)
    (param : Nat) (ref : Int) : Except String Int :=
  match pyGet prog (ip + param) with
  | none => .error "IndexError"
  | some x =>
    match modes with
    | none => .ok x
    | some ms =>
      match ms.get? (param - 1) with
      | none => .error "IndexError"
      | some none => .error "invalid literal for int"
      | some (some d) =>
        match d with
        | 0 => .ok x
        | 1 => .error "Immediate mode not supported for writes"
        | 2 => .ok (x + ref)
        | _ => .error "is not a valid ParamMode"

/-- Outcome of executing one operation of the run loop. -/
inductive StepOut where
  /-- Memory, machine and instruction pointer after the operation. -/
  | next (prog : List Int) (comp : IntcodeComp) (ip : Int)
  /-- The halt opcode was reached: the loop exits with this memory/machine. -/
  | halt (prog : List Int) (comp : IntcodeComp)
  /-- A threaded machine busy-waits on an empty input queue: the state is
  unchanged until another thread supplies a value. -/
  | blocked
  /-- A Python exception with its message. -/
  | err (msg : String)
deriving DecidableEq, Repr

/-- Sequence an operand resolution into a step. -/
def liftE (e : Except String Int) (k : Int → StepOut) : StepOut :=
  match e with
  | .error s => .err s
  | .ok v => k v

/-- Sequence a memory access into a step. -/
def liftO {α : Type} (o : Option α) (k : α → StepOut) : StepOut :=
  match o with
  | none => .err "IndexError"
  | some v => k v

/-- Model of `IntcodeComp._add`. -/
def IntcodeComp.add (prog : List Int) (ip : Int) (comp : IntcodeComp)
    (m : Option Modes) : StepOut :=
  liftE (get_param prog ip m 1 comp.reference) fun a =>
  liftE (get_param prog ip m 2 comp.reference) fun b =>
  liftE (get_register prog ip m 3 comp.reference) fun c =>
  liftO (pySet prog c (a + b)) fun prog2 =>
  .next prog2 comp (ip + 4)

/-- Model of `IntcodeComp._mul`. -/
def IntcodeComp.mul (prog : List Int) (ip : Int) (comp : IntcodeComp)
    (m : Option Modes) : StepOut :=
  liftE (get_param prog ip m 1 comp.reference) fun a =>
  liftE (get_param prog ip m 2 comp.reference) fun b =>
  liftE (get_register prog ip m 3 comp.reference) fun c =>
  liftO (pySet prog c (a * b)) fun prog2 =>
  .next prog2 comp (ip + 4)

/-- Model of `IntcodeComp._inp`: on an empty input buffer a threaded machine
suspends (busy-wait, state unchanged) and a non-threaded machine raises;
otherwise the write address is resolved, the head of the buffer is popped
and stored, and `ip` advances by 2. -/
def IntcodeComp.inp (prog : List Int) (ip : Int) (comp : IntcodeComp)
    (m : Option Modes) : StepOut :=
  match comp.inputBuffer with
  | [] =>
    if comp.threaded then .blocked
    else .err "Input buffer empty"
  | v :: t =>
    liftE (get_register prog ip m 1 comp.reference) fun a =>
    liftO (pySet prog a v) fun prog2 =>
    .next prog2 { comp with inputBuffer := t } (ip + 2)

/-- Model of `IntcodeComp._out`: append the parameter value to the tail of the
output buffer. -/
def IntcodeComp.out (prog : List Int) (ip : Int) (comp : IntcodeComp)
    (m : Option Modes) : StepOut :=
  liftE (get_param prog ip m 1 comp.reference) fun a =>
  .next prog { comp with outputBuffer := comp.outputBuffer ++ [a] } (ip + 2)

/-- Model of `IntcodeComp._jit`. -/
def IntcodeComp.jit (prog : List Int) (ip : Int) (comp : IntcodeComp)
    (m : Option Modes) : StepOut :=
  liftE (get_param prog ip m 1 comp.reference) fun a =>
  liftE (get_param prog ip m 2 comp.reference) fun b =>
  .next prog comp (if a ≠ 0 then b else ip + 3)

/-- Model of `IntcodeComp._jif`. -/
def IntcodeComp.jif (prog : List Int) (ip : Int) (comp : IntcodeComp)
    (m : Option Modes) : StepOut :=
  liftE (get_param prog ip m 1 comp.reference) fun a =>
  liftE (get_param prog ip m 2 comp.reference) fun b =>
  .next prog comp (if a = 0 then b else ip + 3)

/-- Model of `IntcodeComp._tlt`. -/
def IntcodeComp.tlt (prog : List Int) (ip : Int) (comp : IntcodeComp)
    (m : Option Modes) : StepOut :=
  liftE (get_param prog ip m 1 comp.reference) fun a =>
  liftE (get_param prog ip m 2 comp.reference) fun b =>
  liftE (get_register prog ip m 3 comp.reference) fun c =>
  liftO (pySet prog c (if a < b then 1 else 0)) fun prog2 =>
  .next prog2 comp (ip + 4)

/-- Model of `IntcodeComp._teq`. -/
def IntcodeComp.teq (prog : List Int) (ip : Int) (comp : IntcodeComp)
    (m : Option Modes) : StepOut :=
  liftE (get_param prog ip m 1 comp.reference) fun a =>
  liftE (get_param prog ip m 2 comp.reference) fun b =>
  liftE (get_register prog ip m 3 comp.reference) fun c =>
  liftO (pySet prog c (if a = b then 1 else 0)) fun prog2 =>
  .next prog2 comp (ip + 4)

/-- Model of `IntcodeComp._ref`: adjust the relative base. -/
def IntcodeComp.ref (prog : List Int) (ip : Int) (comp : IntcodeComp)
    (m : Option Modes) : StepOut :=
  liftE (get_param prog ip m 1 comp.reference) fun a =>
  .next prog { comp with reference := comp.reference + a } (ip + 2)

/-- Model of the `_operations` dispatch table.  The halt entry mirrors the
`lambda _, ip, __, ___: ip` of the source (it is never reached from the run
loop, which checks for halt before dispatching). -/
def operations (op : Opcode) (prog : List Int) (ip : Int)
    (comp : IntcodeComp) (m : Option Modes) : StepOut :=
  match op with
  | .ADD => IntcodeComp.add prog ip comp m
  | .MUL => IntcodeComp.mul prog ip comp m
  | .INP => IntcodeComp.inp prog ip comp m
  | .OUT => IntcodeComp.out prog ip comp m
  | .JIT => IntcodeComp.jit prog ip comp m
  | .JIF => IntcodeComp.jif prog ip comp m
  | .TLT => IntcodeComp.tlt prog ip comp m
  | .TEQ => IntcodeComp.teq prog ip comp m
  | .REF => IntcodeComp.ref prog ip comp m
  | .HLT => .next prog comp ip

/-- One iteration of the run loop: fetch the word at `ip`, decode it
(with parameter modes when `useModes`, as the full word otherwise), exit on
halt, and dispatch every other opcode through the table.  A decode failure
is the propagated `ValueError` of the `Opcode` conversion. -/
def step (useModes : Bool) (prog : List Int) (comp : IntcodeComp)
    (ip : Int) : StepOut :=
  match pyGet prog ip with
  | none => .err "IndexError"
  | some w =>
    if useModes then
      match decode_instruction w with
      | (none, _) => .err "is not a valid Opcode"
      | (some Opcode.HLT, _) => .halt prog comp
      | (some op, ms) => operations op prog ip comp (some ms)
    else
      match toOpcodeI w with
      | none => .err "is not a valid Opcode"
      | some Opcode.HLT => .halt prog comp
      | some op => operations op prog ip comp none

/-- Result of a whole run. -/
inductive RunRes where
  /-- Halt was reached: final memory and final machine. -/
  | done (prog : List Int) (comp : IntcodeComp)
  /-- A threaded machine is suspended on an empty input queue. -/
  | blocked
  /-- A Python exception with its message. -/
  | err (msg : String)
  /-- Fuel exhausted (the Python loop would still be running). -/
  | timeout
deriving DecidableEq, Repr

/-- The `while opcode is not Opcode.HLT` loop of `run_program` /
`_run_program_modes`, with explicit fuel for termination. -/
def runLoop (useModes : Bool) : Nat → List Int → IntcodeComp → Int → RunRes
  | 0, _, _, _ => .timeout
  | fuel + 1, prog, comp, ip =>
    match step useModes prog comp ip with
    | .halt p c => .done p c
    | .next p c i => runLoop useModes fuel p c i
    | .blocked => .blocked
    | .err m => .err m

/-- Model of `IntcodeComp.run_program`: copy the construction-time program, reset
the relative base to zero, optionally write `noun` to address 1 (and then
optionally `verb` to address 2), and run the loop from `ip = 0` in the
mode the machine was constructed with. -/
def run_program (comp : IntcodeComp) (fuel : Nat)
    (noun : Option Int := none) (verb : Option Int := none) : RunRes :=
  let prog := comp.program
  let comp2 := { comp with reference := 0 }
  match noun with
  | none => runLoop comp2.modes fuel prog comp2 0
  | some n =>
    match pySet prog 1 n with
    | none => .err "IndexError"
    | some prog1 =>
      match verb with
      | none => runLoop comp2.modes fuel prog1 comp2 0
      | some v =>
        match pySet prog1 2 v with
        | none => .err "IndexError"
        | some prog2 => runLoop comp2.modes fuel prog2 comp2 0

/-- The final output buffer of a completed run. -/
def outputOf (r : RunRes) : Option (List Int) :=
  match r with
  | .done _ c => some c.outputBuffer
  | _ => none

/-- The final machine of a completed run. -/
def finalComp (r : RunRes) : Option IntcodeComp :=
  match r with
  | .done _ c => some c
  | _ => none

/-- The final input buffer of a completed run. -/
def inputOf (r : RunRes) : Option (List Int) :=
  match r with
  | .done _ c => some c.inputBuffer
  | _ => none

/-- The `input_buffer` property setter (queue aliasing point). -/
def input_buffer_set (c : IntcodeComp) (q : List Int) : IntcodeComp :=
  { c with inputBuffer := q }

set_option maxRecDepth 4000

/-! ## Helper lemmas: decimal digits of the formatted instruction -/

/-- The fuelled digit list extracts exactly the base-10 digits. -/
lemma digitsAux_getD : ∀ f n, n ≤ f → ∀ i, (digitsAux f n).getD i 0 = n / 10 ^ i % 10 := by
  intro f
  induction f with
  | zero =>
    intro n hn i
    obtain rfl : n = 0 := Nat.le_zero.mp hn
    simp [digitsAux]
  | succ f ih =>
    intro n hn i
    match n with
    | 0 => simp [digitsAux]
    | m + 1 =>
      cases i with
      | zero => simp [digitsAux]
      | succ i =>
        have hle : (m + 1) / 10 ≤ f := by
          have h1 : (m + 1) / 10 < m + 1 := Nat.div_lt_self (Nat.succ_pos m) (by omega)
          omega
        simp only [digitsAux, List.getD_cons_succ]
        rw [ih _ hle i, Nat.div_div_eq_div_mul, pow_succ, mul_comm (10 ^ i) 10]

lemma natDigitsLE_getD (n i : Nat) : (natDigitsLE n).getD i 0 = n / 10 ^ i % 10 :=
  digitsAux_getD n n le_rfl i

/-- Padding with zeros does not change any digit read with default 0. -/
lemma getD_append_replicate (l : List Nat) (k i : Nat) :
    (l ++ List.replicate k 0).getD i 0 = l.getD i 0 := by
  rcases Nat.lt_or_ge i l.length with h | h
  · rw [List.getD_eq_getElem?_getD, List.getElem?_append_left h, ← List.getD_eq_getElem?_getD]
  · rw [List.getD_eq_getElem?_getD, List.getElem?_append_right h, List.getElem?_replicate,
      List.getD_eq_getElem?_getD, List.getElem?_eq_none (by omega)]
    split <;> simp

lemma padTo_getD (k : Nat) (l : List Nat) (i : Nat) :
    (padTo k l).getD i 0 = l.getD i 0 :=
  getD_append_replicate l _ i

lemma padTo_length (k : Nat) (l : List Nat) : k ≤ (padTo k l).length := by
  simp only [padTo, List.length_append, List.length_replicate]
  omega

lemma padTo_getElem? (k : Nat) (l : List Nat) (i : Nat) (h : i < k) :
    (padTo k l)[i]? = some (l.getD i 0) := by
  have hlen : i < (padTo k l).length := lt_of_lt_of_le h (padTo_length k l)
  rw [← padTo_getD k l i, List.getD_eq_getElem?_getD]
  rcases List.getElem?_eq_some_iff.mpr ⟨hlen, rfl⟩ with h2
  rw [List.getElem?_eq_getElem hlen]
  rfl

/-- On a non-negative word the formatted characters are the padded digits. -/
lemma instrChars_ofNat (w : Nat) :
    instrChars (w : Int) = (padTo 5 (natDigitsLE w)).map some := by
  simp [instrChars]

lemma instrChars_ofNat_getElem? (w i : Nat) (h : i < 5) :
    (instrChars (w : Int))[i]? = some (some (w / 10 ^ i % 10)) := by
  rw [instrChars_ofNat, List.getElem?_map, padTo_getElem? 5 _ i h, natDigitsLE_getD]
  rfl

/-- C3, first part: the low two formatted characters recompose to `w % 100`. -/
lemma opcodeNum_instrChars (w : Nat) : opcodeNum (instrChars (w : Int)) = w % 100 := by
  have h0 := instrChars_ofNat_getElem? w 0 (by omega)
  have h1 := instrChars_ofNat_getElem? w 1 (by omega)
  simp only [opcodeNum, List.getD_eq_getElem?_getD, h0, h1, Option.getD_some, pow_zero, pow_one,
    Nat.div_one]
  omega

/-- C3, modes part: character `p - 1` of the modes string is the decimal
digit of `w` at place `10 ^ (p + 1)`. -/
lemma modes_getElem? (w p : Nat) (hp : p < 3) :
    (decode_instruction (w : Int)).2[p]? = some (some (w / 10 ^ (p + 2) % 10)) := by
  simp only [decode_instruction, List.getElem?_drop]
  have h := instrChars_ofNat_getElem? w (2 + p) (by omega)
  rw [Nat.add_comm 2 p] at h
  rw [Nat.add_comm 2 p, h]

/-- Claim C3: For every non-negative instruction word `w`, decoding yields
opcode `w % 100` (both as the recomposed two low characters and through the
enum conversion), and the mode character of parameter `i ∈ {1,2,3}` read by
`modes[-i]` is the decimal digit of `w` at place `10 ^ (i + 1)` — parameter
3's mode being the most significant digit of the five-digit form, with
absent digits reading as 0 (Position) through the zero padding. -/
theorem c3_decode_characterisation (w : Nat) :
    opcodeNum (instrChars (w : Int)) = w % 100 ∧
    (decode_instruction (w : Int)).1 = toOpcodeN (w % 100) ∧
    (decode_instruction (w : Int)).2[1 - 1]? = some (some (w / 10 ^ 2 % 10)) ∧
    (decode_instruction (w : Int)).2[2 - 1]? = some (some (w / 10 ^ 3 % 10)) ∧
    (decode_instruction (w : Int)).2[3 - 1]? = some (some (w / 10 ^ 4 % 10)) := by
  refine ⟨opcodeNum_instrChars w, ?_, ?_, ?_, ?_⟩
  · simp only [decode_instruction]
    rw [opcodeNum_instrChars w]
  · exact modes_getElem? w 0 (by omega)
  · exact modes_getElem? w 1 (by omega)
  · exact modes_getElem? w 2 (by omega)

/-- Claim C4: Resolving a write address yields `memory[ip + param]` in
Position mode (digit 0), `memory[ip + param] + base` in Relative mode
(digit 2), and an error — never a silent fallback — in Immediate mode
(digit 1). -/
theorem c4_write_address_resolution (prog : List Int) (ip ref x : Int)
    (p : Nat) (ms : Modes) (d : Nat)
    (hx : pyGet prog (ip + p) = some x)
    (hd : ms[p - 1]? = some (some d)) :
    (d = 0 → get_register prog ip (some ms) p ref = .ok x) ∧
    (d = 2 → get_register prog ip (some ms) p ref = .ok (x + ref)) ∧
    (d = 1 → get_register prog ip (some ms) p ref =
      .error "Immediate mode not supported for writes") := by
  refine ⟨?_, ?_, ?_⟩ <;> (rintro rfl; simp [get_register, hx, hd])

/-- Witness for C4 at a concrete memory, pointer and modes string. -/
theorem c4_witness :
    get_register [0, 3] 0 (some [some 0]) 1 10 = .ok 3 ∧
    get_register [0, 3] 0 (some [some 2]) 1 10 = .ok 13 ∧
    get_register [0, 3] 0 (some [some 1]) 1 10 =
      .error "Immediate mode not supported for writes" :=
  ⟨(c4_write_address_resolution [0, 3] 0 10 3 1 [some 0] 0 (by decide) (by decide)).1 rfl,
   (c4_write_address_resolution [0, 3] 0 10 3 1 [some 2] 2 (by decide) (by decide)).2.1 rfl,
   (c4_write_address_resolution [0, 3] 0 10 3 1 [some 1] 1 (by decide) (by decide)).2.2 rfl⟩

/-- Claim C1: Executing the Input opcode: with an empty input queue, a
non-threaded machine fails immediately with the input-starvation error while
a threaded machine suspends without error and without advancing `ip`
(`StepOut.blocked` leaves the state untouched, modelling the busy-wait);
once a value heads the queue, the step consumes it, stores it at the
resolved write address and advances `ip` by 2. -/
theorem c1_input_starvation (prog : List Int) (comp : IntcodeComp)
    (ip w : Int) (ms : Modes)
    (hw : pyGet prog ip = some w)
    (hdec : decode_instruction w = (some Opcode.INP, ms)) :
    (comp.inputBuffer = [] → comp.threaded = false →
      step true prog comp ip = .err "Input buffer empty") ∧
    (comp.inputBuffer = [] → comp.threaded = true →
      step true prog comp ip = .blocked) ∧
    (∀ v t a prog2, comp.inputBuffer = v :: t →
      get_register prog ip (some ms) 1 comp.reference = .ok a →
      pySet prog a v = some prog2 →
      step true prog comp ip =
        .next prog2 { comp with inputBuffer := t } (ip + 2)) := by
  refine ⟨?_, ?_, ?_⟩
  · intro h1 h2
    simp [step, hw, hdec, operations, IntcodeComp.inp, h1, h2]
  · intro h1 h2
    simp [step, hw, hdec, operations, IntcodeComp.inp, h1, h2]
  · intro v t a prog2 hbuf hreg hset
    simp [step, hw, hdec, operations, IntcodeComp.inp, hbuf, hreg, hset, liftE, liftO]

/-- Witness for C1: the machine `3,1,99` at `ip = 0` in all three
situations. -/
theorem c1_witness :
    step true [3, 1, 99] ⟨[3, 1, 99], true, false, [], [], 0⟩ 0 =
      .err "Input buffer empty" ∧
    step true [3, 1, 99] ⟨[3, 1, 99], true, true, [], [], 0⟩ 0 = .blocked ∧
    step true [3, 1, 99] ⟨[3, 1, 99], true, false, [7], [], 0⟩ 0 =
      .next [3, 7, 99] ⟨[3, 1, 99], true, false, [], [], 0⟩ 2 :=
  ⟨(c1_input_starvation [3, 1, 99] ⟨[3, 1, 99], true, false, [], [], 0⟩ 0 3
      [some 0, some 0, some 0] (by decide) (by decide)).1 rfl rfl,
   (c1_input_starvation [3, 1, 99] ⟨[3, 1, 99], true, true, [], [], 0⟩ 0 3
      [some 0, some 0, some 0] (by decide) (by decide)).2.1 rfl rfl,
   (c1_input_starvation [3, 1, 99] ⟨[3, 1, 99], true, false, [7], [], 0⟩ 0 3
      [some 0, some 0, some 0] (by decide) (by decide)).2.2 7 [] 1 [3, 7, 99]
      rfl (by decide) (by decide)⟩

/-- An opcode value outside the supported set has no `Opcode`. -/
lemma toOpcodeN_eq_none (n : Nat)
    (h : n ∉ ([1, 2, 3, 4, 5, 6, 7, 8, 9, 99] : List Nat)) :
    toOpcodeN n = none := by
  unfold toOpcodeN
  split <;> simp_all

/-- Claim C6: When the word at the instruction pointer decodes to an opcode
outside the supported set, the run loop aborts at once with the
invalid-opcode error as a catchable result propagated to the caller: the
instruction is not skipped and execution does not continue past it. -/
theorem c6_invalid_opcode (prog : List Int) (comp : IntcodeComp)
    (ip w : Int) (fuel : Nat)
    (hw : pyGet prog ip = some w)
    (hop : opcodeNum (instrChars w) ∉ ([1, 2, 3, 4, 5, 6, 7, 8, 9, 99] : List Nat)) :
    runLoop true (fuel + 1) prog comp ip = .err "is not a valid Opcode" := by
  simp [runLoop, step, hw, decode_instruction, toOpcodeN_eq_none _ hop]

/-- Witness for C6: opcode 12 aborts the loop on the program `12,99`. -/
theorem c6_witness :
    runLoop true 5 [12, 99] ⟨[12, 99], true, false, [], [], 0⟩ 0 =
      .err "is not a valid Opcode" :=
  c6_invalid_opcode [12, 99] ⟨[12, 99], true, false, [], [], 0⟩ 0 12 4
    (by decide) (by decide)

/-- The quine program of the 2019 day 9 examples. -/
def quineProg : List Int :=
  [109, 1, 204, -1, 1001, 100, 1, 100, 1008, 100, 16, 101, 1006, 101, 0, 99]

/-- Claim C2: Running the quine program on a freshly constructed machine with
no inputs halts and leaves exactly the sixteen program values, in program
order, in the output queue. -/
theorem c2_quine :
    outputOf (run_program (IntcodeComp.init quineProg) 200) = some quineProg := by
  decide

/-! ## Invariants of the run loop: the machine object across a run -/

/-- What a step may do to the machine object: the stored program, the modes
flag and the threaded flag are untouched; the output buffer only grows at
the tail; the input buffer only shrinks at the head. -/
def machineRel (a b : IntcodeComp) : Prop :=
  b.program = a.program ∧ b.modes = a.modes ∧ b.threaded = a.threaded ∧
  (∃ t2, b.outputBuffer = a.outputBuffer ++ t2) ∧
  (∃ s2, a.inputBuffer = s2 ++ b.inputBuffer)

lemma machineRel_refl (a : IntcodeComp) : machineRel a a :=
  ⟨rfl, rfl, rfl, ⟨[], by simp⟩, ⟨[], rfl⟩⟩

lemma machineRel_trans {a b c : IntcodeComp} (h1 : machineRel a b) (h2 : machineRel b c) :
    machineRel a c := by
  obtain ⟨e1, e2, e3, ⟨t1, e4⟩, ⟨s1, e5⟩⟩ := h1
  obtain ⟨f1, f2, f3, ⟨t2, f4⟩, ⟨s2, f5⟩⟩ := h2
  refine ⟨f1.trans e1, f2.trans e2, f3.trans e3, ⟨t1 ++ t2, ?_⟩, ⟨s1 ++ s2, ?_⟩⟩
  · rw [f4, e4, List.append_assoc]
  · rw [e5, f5, List.append_assoc]

lemma liftE_next {e : Except String Int} {k : Int → StepOut}
    {p : List Int} {c : IntcodeComp} {i : Int}
    (h : liftE e k = .next p c i) : ∃ v, e = .ok v ∧ k v = .next p c i := by
  cases e with
  | error s => simp [liftE] at h
  | ok v => exact ⟨v, rfl, h⟩

lemma liftO_next {α : Type} {o : Option α} {k : α → StepOut}
    {p : List Int} {c : IntcodeComp} {i : Int}
    (h : liftO o k = .next p c i) : ∃ v, o = some v ∧ k v = .next p c i := by
  cases o with
  | none => simp [liftO] at h
  | some v => exact ⟨v, rfl, h⟩

lemma liftE_halt {e : Except String Int} {k : Int → StepOut}
    {p : List Int} {c : IntcodeComp}
    (h : liftE e k = .halt p c) : ∃ v, e = .ok v ∧ k v = .halt p c := by
  cases e with
  | error s => simp [liftE] at h
  | ok v => exact ⟨v, rfl, h⟩

lemma liftO_halt {α : Type} {o : Option α} {k : α → StepOut}
    {p : List Int} {c : IntcodeComp}
    (h : liftO o k = .halt p c) : ∃ v, o = some v ∧ k v = .halt p c := by
  cases o with
  | none => simp [liftO] at h
  | some v => exact ⟨v, rfl, h⟩

/-- Any operation that produces a next state relates the old and new
machine by `machineRel`. -/
lemma operations_next {op : Opcode} {prog : List Int} {ip : Int}
    {comp : IntcodeComp} {m : Option Modes} {p : List Int} {c : IntcodeComp}
    {i : Int} (h : operations op prog ip comp m = .next p c i) :
    machineRel comp c := by
  cases op with
  | ADD =>
    simp only [operations, IntcodeComp.add] at h
    obtain ⟨a, _, h⟩ := liftE_next h
    obtain ⟨b, _, h⟩ := liftE_next h
    obtain ⟨cc, _, h⟩ := liftE_next h
    obtain ⟨p2, _, h⟩ := liftO_next h
    cases h
    exact machineRel_refl comp
  | MUL =>
    simp only [operations, IntcodeComp.mul] at h
    obtain ⟨a, _, h⟩ := liftE_next h
    obtain ⟨b, _, h⟩ := liftE_next h
    obtain ⟨cc, _, h⟩ := liftE_next h
    obtain ⟨p2, _, h⟩ := liftO_next h
    cases h
    exact machineRel_refl comp
  | INP =>
    rcases hbuf : comp.inputBuffer with _ | ⟨v, t⟩
    · simp only [operations, IntcodeComp.inp, hbuf] at h
      rcases hth : comp.threaded <;> simp [hth] at h
    · simp only [operations, IntcodeComp.inp, hbuf] at h
      obtain ⟨a, _, h⟩ := liftE_next h
      obtain ⟨p2, _, h⟩ := liftO_next h
      cases h
      exact ⟨rfl, rfl, rfl, ⟨[], by simp⟩, ⟨[v], by simp [hbuf]⟩⟩
  | OUT =>
    simp only [operations, IntcodeComp.out] at h
    obtain ⟨a, _, h⟩ := liftE_next h
    cases h
    exact ⟨rfl, rfl, rfl, ⟨[a], rfl⟩, ⟨[], rfl⟩⟩
  | JIT =>
    simp only [operations, IntcodeComp.jit] at h
    obtain ⟨a, _, h⟩ := liftE_next h
    obtain ⟨b, _, h⟩ := liftE_next h
    cases h
    exact machineRel_refl comp
  | JIF =>
    simp only [operations, IntcodeComp.jif] at h
    obtain ⟨a, _, h⟩ := liftE_next h
    obtain ⟨b, _, h⟩ := liftE_next h
    cases h
    exact machineRel_refl comp
  | TLT =>
    simp only [operations, IntcodeComp.tlt] at h
    obtain ⟨a, _, h⟩ := liftE_next h
    obtain ⟨b, _, h⟩ := liftE_next h
    obtain ⟨cc, _, h⟩ := liftE_next h
    obtain ⟨p2, _, h⟩ := liftO_next h
    cases h
    exact machineRel_refl comp
  | TEQ =>
    simp only [operations, IntcodeComp.teq] at h
    obtain ⟨a, _, h⟩ := liftE_next h
    obtain ⟨b, _, h⟩ := liftE_next h
    obtain ⟨cc, _, h⟩ := liftE_next h
    obtain ⟨p2, _, h⟩ := liftO_next h
    cases h
    exact machineRel_refl comp
  | REF =>
    simp only [operations, IntcodeComp.ref] at h
    obtain ⟨a, _, h⟩ := liftE_next h
    cases h
    exact ⟨rfl, rfl, rfl, ⟨[], by simp⟩, ⟨[], rfl⟩⟩
  | HLT =>
    simp only [operations] at h
    cases h
    exact machineRel_refl comp

/-- No operation of the dispatch table produces the halt outcome (halt is
intercepted by the loop before dispatch). -/
lemma operations_ne_halt {op : Opcode} {prog : List Int} {ip : Int}
    {comp : IntcodeComp} {m : Option Modes} {p : List Int} {c : IntcodeComp}
    (h : operations op prog ip comp m = .halt p c) : False := by
  cases op with
  | ADD =>
    simp only [operations, IntcodeComp.add] at h
    obtain ⟨a, _, h⟩ := liftE_halt h
    obtain ⟨b, _, h⟩ := liftE_halt h
    obtain ⟨cc, _, h⟩ := liftE_halt h
    obtain ⟨p2, _, h⟩ := liftO_halt h
    cases h
  | MUL =>
    simp only [operations, IntcodeComp.mul] at h
    obtain ⟨a, _, h⟩ := liftE_halt h
    obtain ⟨b, _, h⟩ := liftE_halt h
    obtain ⟨cc, _, h⟩ := liftE_halt h
    obtain ⟨p2, _, h⟩ := liftO_halt h
    cases h
  | INP =>
    rcases hbuf : comp.inputBuffer with _ | ⟨v, t⟩
    · simp only [operations, IntcodeComp.inp, hbuf] at h
      rcases hth : comp.threaded <;> simp [hth] at h
    · simp only [operations, IntcodeComp.inp, hbuf] at h
      obtain ⟨a, _, h⟩ := liftE_halt h
      obtain ⟨p2, _, h⟩ := liftO_halt h
      cases h
  | OUT =>
    simp only [operations, IntcodeComp.out] at h
    obtain ⟨a, _, h⟩ := liftE_halt h
    cases h
  | JIT =>
    simp only [operations, IntcodeComp.jit] at h
    obtain ⟨a, _, h⟩ := liftE_halt h
    obtain ⟨b, _, h⟩ := liftE_halt h
    cases h
  | JIF =>
    simp only [operations, IntcodeComp.jif] at h
    obtain ⟨a, _, h⟩ := liftE_halt h
    obtain ⟨b, _, h⟩ := liftE_halt h
    cases h
  | TLT =>
    simp only [operations, IntcodeComp.tlt] at h
    obtain ⟨a, _, h⟩ := liftE_halt h
    obtain ⟨b, _, h⟩ := liftE_halt h
    obtain ⟨cc, _, h⟩ := liftE_halt h
    obtain ⟨p2, _, h⟩ := liftO_halt h
    cases h
  | TEQ =>
    simp only [operations, IntcodeComp.teq] at h
    obtain ⟨a, _, h⟩ := liftE_halt h
    obtain ⟨b, _, h⟩ := liftE_halt h
    obtain ⟨cc, _, h⟩ := liftE_halt h
    obtain ⟨p2, _, h⟩ := liftO_halt h
    cases h
  | REF =>
    simp only [operations, IntcodeComp.ref] at h
    obtain ⟨a, _, h⟩ := liftE_halt h
    cases h
  | HLT =>
    simp only [operations] at h
    cases h

/-- One step that continues relates old and new machine by `machineRel`. -/
lemma step_next {u : Bool} {prog : List Int} {comp : IntcodeComp} {ip : Int}
    {p : List Int} {c : IntcodeComp} {i : Int}
    (h : step u prog comp ip = .next p c i) : machineRel comp c := by
  simp only [step] at h
  split at h
  · cases h
  · split at h
    · split at h
      · cases h
      · cases h
      · exact operations_next h
    · split at h
      · cases h
      · cases h
      · exact operations_next h

/-- One step that halts returns the memory and the machine unchanged. -/
lemma step_halt {u : Bool} {prog : List Int} {comp : IntcodeComp} {ip : Int}
    {p : List Int} {c : IntcodeComp}
    (h : step u prog comp ip = .halt p c) : p = prog ∧ c = comp := by
  simp only [step] at h
  split at h
  · cases h
  · split at h
    · split at h
      · cases h
      · cases h with
        | refl => exact ⟨rfl, rfl⟩
      · exact absurd h operations_ne_halt
    · split at h
      · cases h
      · cases h with
        | refl => exact ⟨rfl, rfl⟩
      · exact absurd h operations_ne_halt

/-- A completed run loop relates its starting and final machine by
`machineRel`. -/
lemma runLoop_done {u : Bool} :
    ∀ fuel (prog : List Int) (comp : IntcodeComp) (ip : Int)
      (p : List Int) (c : IntcodeComp),
      runLoop u fuel prog comp ip = .done p c → machineRel comp c := by
  intro fuel
  induction fuel with
  | zero => intro prog comp ip p c h; simp [runLoop] at h
  | succ f ih =>
    intro prog comp ip p c h
    simp only [runLoop] at h
    split at h
    · cases h with
      | refl => exact ((step_halt (by assumption)).2 ▸ machineRel_refl comp)
    · exact machineRel_trans (step_next (by assumption)) (ih _ _ _ _ _ h)
    · cases h
    · cases h

/-- A completed `run_program` relates the machine before and after by
`machineRel`. -/
lemma run_program_done {comp : IntcodeComp} {fuel : Nat}
    {noun verb : Option Int} {p : List Int} {c : IntcodeComp}
    (h : run_program comp fuel noun verb = .done p c) : machineRel comp c := by
  have base : machineRel comp { comp with reference := 0 } :=
    ⟨rfl, rfl, rfl, ⟨[], by simp⟩, ⟨[], rfl⟩⟩
  simp only [run_program] at h
  split at h
  · exact machineRel_trans base (runLoop_done _ _ _ _ _ _ h)
  · split at h
    · cases h
    · split at h
      · exact machineRel_trans base (runLoop_done _ _ _ _ _ _ h)
      · split at h
        · cases h
        · exact machineRel_trans base (runLoop_done _ _ _ _ _ _ h)

/-- Claim C5: Every invocation of `run_program` (a) gives a result
independent of the relative base left by any previous run — the base is
reset to zero first; (b) leaves the machine's stored program field exactly
as it was at construction; and (c) executes on a fresh copy of the
construction-time program with the optional noun and verb written to
addresses 1 and 2 of that copy, starting from `ip = 0` and base 0. -/
theorem c5_fresh_run (comp : IntcodeComp) (fuel : Nat)
    (noun verb : Option Int) :
    (∀ r, run_program { comp with reference := r } fuel noun verb =
      run_program comp fuel noun verb) ∧
    (∀ p c, run_program comp fuel noun verb = .done p c →
      c.program = comp.program) ∧
    (∀ n v prog1 prog2, noun = some n → verb = some v →
      pySet comp.program 1 n = some prog1 → pySet prog1 2 v = some prog2 →
      run_program comp fuel noun verb =
        runLoop comp.modes fuel prog2 { comp with reference := 0 } 0) := by
  refine ⟨?_, ?_, ?_⟩
  · intro r
    cases comp
    rfl
  · intro p c h
    exact (run_program_done h).1
  · rintro n v prog1 prog2 rfl rfl h1 h2
    simp only [run_program, h1, h2]

/-- Witness for C5 on a concrete three-cell machine with noun 12 and
verb 2. -/
theorem c5_witness :
    (run_program ⟨[99, 0, 0], true, false, [], [], 3⟩ 5 (some 12) (some 2) =
      run_program ⟨[99, 0, 0], true, false, [], [], 0⟩ 5 (some 12) (some 2)) ∧
    (⟨[99, 0, 0], true, false, [], [], 0⟩ : IntcodeComp).program =
      (⟨[99, 0, 0], true, false, [], [], 0⟩ : IntcodeComp).program ∧
    (run_program ⟨[99, 0, 0], true, false, [], [], 0⟩ 5 (some 12) (some 2) =
      runLoop true 5 [99, 12, 2]
        { (⟨[99, 0, 0], true, false, [], [], 0⟩ : IntcodeComp) with
          reference := 0 } 0) :=
  ⟨(c5_fresh_run ⟨[99, 0, 0], true, false, [], [], 0⟩ 5 (some 12) (some 2)).1 3,
   (c5_fresh_run ⟨[99, 0, 0], true, false, [], [], 0⟩ 5 (some 12) (some 2)).2.1
     [99, 12, 2] ⟨[99, 0, 0], true, false, [], [], 0⟩ (by decide),
   (c5_fresh_run ⟨[99, 0, 0], true, false, [], [], 0⟩ 5 (some 12) (some 2)).2.2
     12 2 [99, 12, 0] [99, 12, 2] rfl rfl (by decide) (by decide)⟩

/-- Claim C10: The input and output queues persist across runs: a completed
run only appends to the tail of the output queue (earlier outputs stay at
its head) and only pops from the head of the input queue (unconsumed
values stay queued); concretely, running the machine `104,5,99` twice
accumulates `[5, 5]`, and an input value left untouched by `99` is still
queued after the run. -/
theorem c10_buffers_persist :
    (∀ (comp : IntcodeComp) (fuel : Nat) (noun verb : Option Int)
       (p : List Int) (c : IntcodeComp),
      run_program comp fuel noun verb = .done p c →
        (∃ t2, c.outputBuffer = comp.outputBuffer ++ t2) ∧
        (∃ s2, comp.inputBuffer = s2 ++ c.inputBuffer)) ∧
    (Option.bind (finalComp (run_program (IntcodeComp.init [104, 5, 99]) 5))
      (fun c1 => outputOf (run_program c1 5)) = some [5, 5]) ∧
    (inputOf (run_program (input_buffer_set (IntcodeComp.init [99]) [42]) 5) =
      some [42]) := by
  refine ⟨?_, by decide, by decide⟩
  intro comp fuel noun verb p c h
  obtain ⟨_, _, _, h4, h5⟩ := run_program_done h
  exact ⟨h4, h5⟩

/-- Witness for C10 on a concrete machine with a pending input value. -/
theorem c10_witness :
    (∃ t2, ([5] : List Int) = [] ++ t2) ∧ (∃ s2, ([42] : List Int) = s2 ++ [42]) := by
  have h := c10_buffers_persist.1 ⟨[104, 5, 99], true, false, [42], [], 0⟩ 5
    none none [104, 5, 99] ⟨[104, 5, 99], true, false, [42], [5], 0⟩ (by decide)
  exact ⟨h.1, h.2⟩

/-- Counterexample to C7 as stated: memory is not logically unbounded.
Address 2001 of a one-instruction machine lies beyond the literal program
length and was never written, yet reading it fails (`IndexError`) instead
of returning zero, and a program that reads address 9999 aborts the run
with that error. -/
theorem c7_counterexample :
    pyGet (IntcodeComp.init [99] true false).program 2001 ≠ some 0 ∧
    pyGet (IntcodeComp.init [99] true false).program 2001 = none ∧
    run_program (IntcodeComp.init [4, 9999, 99]) 10 = .err "IndexError" := by
  refine ⟨by decide, by decide, by decide⟩

/-- Claim C7, amended: Reading an unwritten address at or beyond the
literal program length returns zero only within the fixed 2000-cell
zero pad appended at construction; beyond `length + 2000` the read raises
an index error instead. -/
theorem c7_pad_reads_zero (code : List Int) (m t : Bool) (a : Nat)
    (h1 : code.length ≤ a) (h2 : a < code.length + 2000) :
    pyGet (IntcodeComp.init code m t).program (a : Int) = some 0 := by
  simp only [pyGet, IntcodeComp.init]
  rw [if_pos (Int.natCast_nonneg a), Int.toNat_natCast,
    List.get?_eq_getElem?, List.getElem?_append_right h1,
    List.getElem?_replicate, if_pos (by omega)]

/-- Witness for C7 (amended): address 1 of the machine built from `99`. -/
theorem c7_witness :
    pyGet (IntcodeComp.init [99] true false).program ((1 : Nat) : Int) = some 0 :=
  c7_pad_reads_zero [99] true false 1 (by decide) (by decide)

/-- Claim C8: Queue chaining is FIFO: an Output step appends its value at
the tail of the producing machine's output buffer (all earlier values
staying in place, in order), an Input step consumes exactly the head of
the consuming machine's input buffer, and — aliasing machine B's input
buffer to machine A's output buffer — the values `10, 20, 30` produced by
A are consumed by B in exactly the order A produced them. -/
theorem c8_queue_chaining :
    (∀ (prog : List Int) (comp : IntcodeComp) (ip w : Int) (ms : Modes) (a : Int),
      pyGet prog ip = some w →
      decode_instruction w = (some Opcode.OUT, ms) →
      get_param prog ip (some ms) 1 comp.reference = .ok a →
      step true prog comp ip =
        .next prog { comp with outputBuffer := comp.outputBuffer ++ [a] } (ip + 2)) ∧
    (∀ (prog : List Int) (comp : IntcodeComp) (ip w : Int) (ms : Modes)
       (v : Int) (t : List Int) (a : Int) (prog2 : List Int),
      pyGet prog ip = some w →
      decode_instruction w = (some Opcode.INP, ms) →
      comp.inputBuffer = v :: t →
      get_register prog ip (some ms) 1 comp.reference = .ok a →
      pySet prog a v = some prog2 →
      step true prog comp ip = .next prog2 { comp with inputBuffer := t } (ip + 2)) ∧
    (outputOf (run_program (IntcodeComp.init [104, 10, 104, 20, 104, 30, 99]) 50) =
      some [10, 20, 30] ∧
     outputOf (run_program
        (input_buffer_set (IntcodeComp.init [3, 0, 4, 0, 3, 0, 4, 0, 3, 0, 4, 0, 99])
          [10, 20, 30]) 50) =
      some [10, 20, 30]) := by
  refine ⟨?_, ?_, by decide, by decide⟩
  · intro prog comp ip w ms a hw hdec hpar
    simp [step, hw, hdec, operations, IntcodeComp.out, hpar, liftE]
  · intro prog comp ip w ms v t a prog2 hw hdec hbuf hreg hset
    simp [step, hw, hdec, operations, IntcodeComp.inp, hbuf, hreg, hset, liftE, liftO]

/-- Witness for C8: one Output step of the machine `104,10,…` and one
Input step of the echo machine consuming the head value 10. -/
theorem c8_witness :
    step true [104, 10, 99] ⟨[104, 10, 99], true, false, [], [7], 0⟩ 0 =
      .next [104, 10, 99] ⟨[104, 10, 99], true, false, [], [7, 10], 0⟩ 2 ∧
    step true [3, 0, 99] ⟨[3, 0, 99], true, false, [10, 20], [], 0⟩ 0 =
      .next [10, 0, 99] ⟨[3, 0, 99], true, false, [20], [], 0⟩ 2 :=
  ⟨c8_queue_chaining.1 [104, 10, 99] ⟨[104, 10, 99], true, false, [], [7], 0⟩ 0 104
      [some 1, some 0, some 0] 10 (by decide) (by decide) rfl,
   c8_queue_chaining.2.1 [3, 0, 99] ⟨[3, 0, 99], true, false, [10, 20], [], 0⟩ 0 3
      [some 0, some 0, some 0] 10 [20] 0 [10, 0, 99] (by decide) (by decide) rfl
      rfl (by decide)⟩

/-- Claim C9: A negative computed address does not fail: it silently aliases
the cell counted backward from the end of the memory array.  The machine
`1101,7,0,-1,4,-1,99` writes 7 through the address `-1` into the very last
pad cell, reads it back through address `-1` and outputs it, completing
without error; in general a Position-mode read whose operand `x` is
negative but at least `-length` yields element `length + x` of memory. -/
theorem c9_negative_address_aliasing :
    (outputOf (run_program (IntcodeComp.init [1101, 7, 0, -1, 4, -1, 99]) 10) =
      some [7]) ∧
    (∀ (prog : List Int) (ip ref x v : Int) (ms : Modes),
      pyGet prog (ip + 1) = some x →
      ms.get? 0 = some (some 0) →
      x < 0 → 0 ≤ x + prog.length →
      prog.get? (x + prog.length).toNat = some v →
      get_param prog ip (some ms) 1 ref = .ok v) := by
  refine ⟨by decide, ?_⟩
  intro prog ip ref x v ms hx hms hneg hbound hv
  have hget : pyGet prog x = some v := by
    simp only [pyGet, if_neg (by omega : ¬ (0 : Int) ≤ x)]
    have hlt : x.natAbs - 1 < prog.length := by omega
    rw [List.get?_eq_getElem?, List.getElem?_reverse hlt, ← List.get?_eq_getElem?]
    have : prog.length - 1 - (x.natAbs - 1) = (x + prog.length).toNat := by omega
    rw [this]
    exact hv
  have hms2 : ms[0]? = some (some 0) := by rw [← List.get?_eq_getElem?]; exact hms
  simp [get_param, hx, hms, hms2, hget]

/-- Witness for C9's general part: reading operand `-1` of `4,-1,99`
returns the last element, 99. -/
theorem c9_witness :
    get_param [4, -1, 99] 0 (some [some 0, some 0, some 0]) 1 0 = .ok 99 :=
  c9_negative_address_aliasing.2 [4, -1, 99] 0 0 (-1) 99
    [some 0, some 0, some 0] (by decide) rfl (by decide) (by decide) (by decide)
